import Mathlib

/-!
Verification development for the front end of the `nickel` language
(repository `SelectricSimian/nickel`).

The repository sources under scrutiny are `src/parse/syntax.rs` (the surface
AST, present in the sources) and `src/parse/mod.rs` (entry points plus the
test suite, present in the sources).  The modules `lex`, `grammar`, `names`
and `to_internal`, which `mod.rs` declares and uses, are not part of the
available sources; every definition below that embeds one of those modules is
modelled from the specification of the front end and carries a doc comment
saying so.  Byte offsets carried by lexical and parse errors are dropped from
the model: no property below depends on error positions.
-/

set_option maxRecDepth 10000

namespace Nickel

/-! ## Surface data model (from `src/parse/syntax.rs` and the spec's §3) -/

/-- From `src/parse/syntax.rs`: `Ident { name: String, collision_id: u64 }`.
The `u64` field is embedded as a `Nat`; the lexer model enforces the
`< 2 ^ 64` range when it builds integer tokens. -/
structure Ident where
  name : String
  collision_id : Nat
deriving DecidableEq, Repr

/-- Modelled from the spec: `Quantifier ∈ {Exists, ForAll}` (the `types`
module that defines it is not among the sources). -/
inductive Quantifier where
  | Exists
  | ForAll
deriving DecidableEq, Repr

/-- Modelled from the spec: `VarUsage ∈ {Copy, Move}` (the `expr` module that
defines it is not among the sources). -/
inductive VarUsage where
  | Copy
  | Move
deriving DecidableEq, Repr

/-- Modelled from the spec's §3: kinds `Type`, `Place`, `Version` and
`Constructor { params, result }` (the `types` module is not among the
sources; the constructor `Type` is renamed `ty` because `Type` is a Lean
keyword). -/
inductive Kind where
  | ty
  | place
  | version
  | constructor (params : List Kind) (result : Kind)

/-- From `src/parse/syntax.rs`: `TypeParam { ident, kind }`. -/
structure TypeParam where
  ident : Ident
  kind : Kind

/-- From `src/parse/syntax.rs`: the surface `Type` tree (named `Ty` because
`Type` is a Lean keyword), with variants `Unit`, `Var`, `Quantified`,
`Func`, `Pair`, `App`. -/
inductive Ty where
  | unit
  | var (ident : Ident)
  | quantified (quantifier : Quantifier) (param : TypeParam) (body : Ty)
  | func (params : List TypeParam) (arg : Ty) (ret : Ty)
  | pair (left : Ty) (right : Ty)
  | app (constructor : Ty) (param : Ty)

/-- From `src/parse/syntax.rs`: the surface `Expr` tree (the `Let` variant is
named `letE` because `let` is a Lean keyword). -/
inductive Expr where
  | unit
  | var (usage : VarUsage) (ident : Ident)
  | func (type_params : List TypeParam) (arg_name : Ident) (arg_type : Ty) (body : Expr)
  | app (callee : Expr) (type_params : List Ty) (arg : Expr)
  | pair (left : Expr) (right : Expr)
  | letE (names : List Ident) (val : Expr) (body : Expr)
  | letExists (type_names : List Ident) (val_name : Ident) (val : Expr) (body : Expr)
  | makeExists (params : List (Ident × Ty)) (type_body : Ty) (body : Expr)

/-! ## Lexer (modelled from the spec, §4.1: module `lex` is absent) -/

/-- Modelled from the spec: the lexical error kinds
`{UnterminatedQuote, BadEscape, BadChar}`, plus `intOverflow` for a decimal
literal that does not fit the `u64` payload of a collision tag. -/
inductive LexErrorKind where
  | unterminatedQuote
  | badEscape
  | badChar
  | intOverflow
deriving DecidableEq, Repr

/-- Modelled from the spec: the token classes of §4.1 — names (raw or
quoted), integers, punctuation and the keyword-like bare words. -/
inductive Token where
  | name (s : String)
  | int (v : Nat)
  | lparen
  | rparen
  | lbrace
  | rbrace
  | semi
  | comma
  | colon
  | star
  | arrow
  | eqTok
  | hash
  | kwMove
  | kwLet
  | kwLetExists
  | kwMakeExists
  | kwFunc
  | kwExists
  | kwForAll
  | kwOf
  | kwIn
  | kwPlace
  | kwVersion
deriving DecidableEq, Repr

/-- The backtick character (written via its code point to keep it out of the
source text). -/
def backtickChar : Char := Char.ofNat 96

/-- Modelled from the spec: whitespace is ASCII space, tab, CR, LF, VT. -/
def isWs (c : Char) : Bool :=
  c == ' ' || c == '\t' || c == '\r' || c == '\n' || c == Char.ofNat 11

/-- Modelled from the spec: a raw name starts with `[A-Za-z_]`. -/
def isNameStart (c : Char) : Bool :=
  c.isAlpha || c == '_'

/-- Modelled from the spec: a raw name continues with `[A-Za-z0-9_]`. -/
def isNameCont (c : Char) : Bool :=
  c.isAlphanum || c == '_'

/-- Modelled from the spec: keywords are recognised after `RawName` lexing by
table lookup. -/
def lexKeyword (s : String) : Token :=
  if s = "move" then .kwMove
  else if s = "let" then .kwLet
  else if s = "let_exists" then .kwLetExists
  else if s = "make_exists" then .kwMakeExists
  else if s = "func" then .kwFunc
  else if s = "exists" then .kwExists
  else if s = "forall" then .kwForAll
  else if s = "of" then .kwOf
  else if s = "in" then .kwIn
  else if s = "Place" then .kwPlace
  else if s = "Version" then .kwVersion
  else .name s

/-- Modelled from the spec: the single-character punctuation tokens. -/
def punct (c : Char) : Option Token :=
  if c = '(' then some .lparen
  else if c = ')' then some .rparen
  else if c = '{' then some .lbrace
  else if c = '}' then some .rbrace
  else if c = ';' then some .semi
  else if c = ',' then some .comma
  else if c = ':' then some .colon
  else if c = '*' then some .star
  else if c = '=' then some .eqTok
  else if c = '#' then some .hash
  else none

/-- Modelled from the spec: the body of a quoted name, after the opening
backtick.  It ends at the next unescaped backtick; inside, a backslash
followed by a backslash denotes one backslash and a backslash followed by a
backtick denotes one backtick; any other escape is `BadEscape`; reaching the
end of input is `UnterminatedQuote`. -/
def lexQuoted : List Char → Except LexErrorKind (List Char × List Char)
  | [] => .error .unterminatedQuote
  | c :: rest =>
    if c = backtickChar then .ok ([], rest)
    else if c = '\\' then
      match rest with
      | [] => .error .unterminatedQuote
      | e :: rest2 =>
        if e = '\\' || e = backtickChar then
          match lexQuoted rest2 with
          | .error err => .error err
          | .ok (nm, r) => .ok (e :: nm, r)
        else .error .badEscape
    else
      match lexQuoted rest with
      | .error err => .error err
      | .ok (nm, r) => .ok (c :: nm, r)

/-- Value of a run of decimal digits. -/
def digitsVal (ds : List Char) : Nat :=
  ds.foldl (fun a c => a * 10 + (c.toNat - 48)) 0

/-- Modelled from the spec: the lexer loop.  Each step consumes at least one
character, so a fuel of one more than the input length never runs out; the
fuel-exhaustion branch returns `badChar` and is unreachable from `lex`. -/
def lexGo : Nat → List Char → Except LexErrorKind (List Token)
  | 0, _ => .error .badChar
  | _ + 1, [] => .ok []
  | fuel + 1, c :: cs =>
    if isWs c then lexGo fuel cs
    else if c = '/' then
      match cs with
      | '/' :: cs2 => lexGo fuel (cs2.dropWhile (fun d => ¬ d = '\n'))
      | _ => .error .badChar
    else if c = backtickChar then
      match lexQuoted cs with
      | .error e => .error e
      | .ok (nm, rest) =>
        match lexGo fuel rest with
        | .error e => .error e
        | .ok toks => .ok (.name (String.mk nm) :: toks)
    else if isNameStart c then
      match lexGo fuel ((c :: cs).dropWhile isNameCont) with
      | .error e => .error e
      | .ok toks => .ok (lexKeyword (String.mk ((c :: cs).takeWhile isNameCont)) :: toks)
    else if c.isDigit then
      if digitsVal ((c :: cs).takeWhile Char.isDigit) < 2 ^ 64 then
        match lexGo fuel ((c :: cs).dropWhile Char.isDigit) with
        | .error e => .error e
        | .ok toks => .ok (.int (digitsVal ((c :: cs).takeWhile Char.isDigit)) :: toks)
      else .error .intOverflow
    else if c = '-' then
      match cs with
      | '>' :: cs2 =>
        match lexGo fuel cs2 with
        | .error e => .error e
        | .ok toks => .ok (.arrow :: toks)
      | _ => .error .badChar
    else
      match punct c with
      | some t =>
        match lexGo fuel cs with
        | .error e => .error e
        | .ok toks => .ok (t :: toks)
      | none => .error .badChar

/-- Modelled from the spec: tokenise a whole source string. -/
def lex (s : String) : Except LexErrorKind (List Token) :=
  lexGo (s.data.length + 1) s.data

/-! ## Grammar (modelled from the spec, §4.2: module `grammar` is absent).

The grammar is embedded as a recursive-descent parser over the token list,
one function per precedence level, following the level-by-level presentation
of §4.2.  Functions that can re-enter the top of a grammar take the
corresponding top-level parser as an explicit argument (`tp` for types, `ep`
for expressions); the knot is tied by a fuel-indexed driver that decrements
its fuel at each re-entry.  Offsets and the `got`/`expected` payloads of
parse errors are dropped from the model. -/

/-- Modelled from the spec: parse-error values (payloads dropped). -/
inductive ParseErr where
  | unexpectedToken
  | unexpectedEof
  | lexError (kind : LexErrorKind)
deriving DecidableEq, Repr

/-- Modelled from the spec: `Ident` parses a name followed optionally by `#`
and an integer; the integer becomes `collision_id`, absent tag means
`collision_id = 0`. -/
def parseIdentT : List Token → Except ParseErr (Ident × List Token)
  | .name s :: .hash :: .int v :: rest => .ok (⟨s, v⟩, rest)
  | .name _ :: .hash :: [] => .error .unexpectedEof
  | .name _ :: .hash :: _ :: _ => .error .unexpectedToken
  | .name s :: rest => .ok (⟨s, 0⟩, rest)
  | [] => .error .unexpectedEof
  | _ :: _ => .error .unexpectedToken

/-- True when the head token can start a kind. -/
def kindStarter : List Token → Bool
  | .star :: _ => true
  | .kwPlace :: _ => true
  | .kwVersion :: _ => true
  | .lparen :: _ => true
  | _ => false

mutual

/-- Modelled from the spec's kind grammar: `*`, `Place`, `Version`, grouping
`(K)`, and `(K1; …; Kn) -> K` with `n ≥ 1` and an optional trailing `;`. -/
def parseKindF : Nat → List Token → Except ParseErr (Kind × List Token)
  | 0, _ => .error .unexpectedEof
  | fuel + 1, toks =>
    match toks with
    | .star :: rest => .ok (.ty, rest)
    | .kwPlace :: rest => .ok (.place, rest)
    | .kwVersion :: rest => .ok (.version, rest)
    | .lparen :: rest =>
      match parseKindListF fuel rest with
      | .error e => .error e
      | .ok (ks, sawSemi, rest2) =>
        match rest2 with
        | .rparen :: .arrow :: rest3 =>
          match parseKindF fuel rest3 with
          | .error e => .error e
          | .ok (res, rest4) => .ok (.constructor ks res, rest4)
        | .rparen :: rest3 =>
          match ks, sawSemi with
          | [k], false => .ok (k, rest3)
          | _, _ => .error .unexpectedToken
        | _ :: _ => .error .unexpectedToken
        | [] => .error .unexpectedEof
    | _ :: _ => .error .unexpectedToken
    | [] => .error .unexpectedEof

/-- Modelled from the spec: a `;`-separated list of kinds with an optional
trailing `;`; the returned flag records whether any `;` was seen, which
distinguishes grouping `(K)` from a one-parameter constructor `(K;) -> K`. -/
def parseKindListF : Nat → List Token → Except ParseErr (List Kind × Bool × List Token)
  | 0, _ => .error .unexpectedEof
  | fuel + 1, toks =>
    match parseKindF fuel toks with
    | .error e => .error e
    | .ok (k, rest) =>
      match rest with
      | .semi :: rest2 =>
        if kindStarter rest2 then
          match parseKindListF fuel rest2 with
          | .error e => .error e
          | .ok (ks, _, rest3) => .ok (k :: ks, true, rest3)
        else .ok ([k], true, rest2)
      | _ => .ok ([k], false, rest)

end

/-- True when the head token can start a type. -/
def typeStarter : List Token → Bool
  | .name _ :: _ => true
  | .lparen :: _ => true
  | .kwExists :: _ => true
  | .kwForAll :: _ => true
  | _ => false

/-- A type parameter `ident : kind` (used by `exists`, `forall` and `func`
parameter blocks). -/
def parseTypeParamF (fuel : Nat) (toks : List Token) :
    Except ParseErr (TypeParam × List Token) :=
  match parseIdentT toks with
  | .error e => .error e
  | .ok (id, rest) =>
    match rest with
    | .colon :: rest2 =>
      match parseKindF fuel rest2 with
      | .error e => .error e
      | .ok (k, rest3) => .ok (⟨id, k⟩, rest3)
    | _ :: _ => .error .unexpectedToken
    | [] => .error .unexpectedEof

/-- A `;`-separated non-empty list of type parameters with an optional
trailing `;` (stops before a token that cannot start a parameter). -/
def parseTypeParamListF : Nat → List Token → Except ParseErr (List TypeParam × List Token)
  | 0, _ => .error .unexpectedEof
  | fuel + 1, toks =>
    match parseTypeParamF fuel toks with
    | .error e => .error e
    | .ok (p, rest) =>
      match rest with
      | .semi :: rest2 =>
        match rest2 with
        | .name _ :: _ =>
          match parseTypeParamListF fuel rest2 with
          | .error e => .error e
          | .ok (ps, rest3) => .ok (p :: ps, rest3)
        | _ => .ok ([p], rest2)
      | _ => .ok ([p], rest)

/-- Type atoms: `()` is `Unit`, `(T)` is grouping, a bare ident is `Var`. -/
def parseTypeAtomL (tp : List Token → Except ParseErr (Ty × List Token))
    (toks : List Token) : Except ParseErr (Ty × List Token) :=
  match toks with
  | .lparen :: .rparen :: rest => .ok (.unit, rest)
  | .lparen :: rest =>
    match tp rest with
    | .error e => .error e
    | .ok (t, .rparen :: rest2) => .ok (t, rest2)
    | .ok (_, _ :: _) => .error .unexpectedToken
    | .ok (_, []) => .error .unexpectedEof
  | .name _ :: _ =>
    match parseIdentT toks with
    | .error e => .error e
    | .ok (id, rest) => .ok (.var id, rest)
  | _ :: _ => .error .unexpectedToken
  | [] => .error .unexpectedEof

/-- The argument list of a type application, after the opening `(`: parses
`A1; …; An` with `n ≥ 1` and an optional trailing `;`, combining each
argument with the accumulator by `App` as it goes. -/
def parseTypeArgsL (tp : List Token → Except ParseErr (Ty × List Token)) :
    Nat → Ty → List Token → Except ParseErr (Ty × List Token)
  | 0, _, _ => .error .unexpectedEof
  | fuel + 1, acc, toks =>
    match tp toks with
    | .error e => .error e
    | .ok (a, rest) =>
      match rest with
      | .semi :: .rparen :: rest2 => .ok (.app acc a, rest2)
      | .semi :: rest2 => parseTypeArgsL tp fuel (.app acc a) rest2
      | .rparen :: rest2 => .ok (.app acc a, rest2)
      | _ :: _ => .error .unexpectedToken
      | [] => .error .unexpectedEof

/-- The application suffix loop: as long as a `(` follows, parse one argument
list. -/
def parseTypeSuffixL (tp : List Token → Except ParseErr (Ty × List Token)) :
    Nat → Ty → List Token → Except ParseErr (Ty × List Token)
  | 0, _, _ => .error .unexpectedEof
  | fuel + 1, acc, toks =>
    match toks with
    | .lparen :: rest =>
      match parseTypeArgsL tp fuel acc rest with
      | .error e => .error e
      | .ok (acc2, rest2) => parseTypeSuffixL tp fuel acc2 rest2
    | _ => .ok (acc, toks)

/-- Application level: an atom followed by zero or more argument lists,
left-folding into `App`. -/
def parseTypeAppL (tp : List Token → Except ParseErr (Ty × List Token))
    (fuel : Nat) (toks : List Token) : Except ParseErr (Ty × List Token) :=
  match parseTypeAtomL tp toks with
  | .error e => .error e
  | .ok (c, rest) => parseTypeSuffixL tp fuel c rest

/-- Quantifier level: `exists {P} B` wraps a single parameter around a
quantifier-level body (nest for multiple parameters). -/
def parseTypeQuantL (tp : List Token → Except ParseErr (Ty × List Token)) :
    Nat → List Token → Except ParseErr (Ty × List Token)
  | 0, _ => .error .unexpectedEof
  | fuel + 1, toks =>
    match toks with
    | .kwExists :: .lbrace :: rest =>
      match parseTypeParamF fuel rest with
      | .error e => .error e
      | .ok (p, rest2) =>
        match rest2 with
        | .rbrace :: rest3 =>
          match parseTypeQuantL tp fuel rest3 with
          | .error e => .error e
          | .ok (b, rest4) => .ok (.quantified .Exists p b, rest4)
        | _ :: _ => .error .unexpectedToken
        | [] => .error .unexpectedEof
    | .kwExists :: _ :: _ => .error .unexpectedToken
    | .kwExists :: [] => .error .unexpectedEof
    | _ => parseTypeAppL tp fuel toks

/-- Arrow level: right-associative `T1 -> T2`, with an optional `forall`
parameter block filling `params`. -/
def parseTypeArrowL (tp : List Token → Except ParseErr (Ty × List Token)) :
    Nat → List Token → Except ParseErr (Ty × List Token)
  | 0, _ => .error .unexpectedEof
  | fuel + 1, toks =>
    match toks with
    | .kwForAll :: .lbrace :: rest =>
      match parseTypeParamListF fuel rest with
      | .error e => .error e
      | .ok (ps, rest2) =>
        match rest2 with
        | .rbrace :: rest3 =>
          match parseTypeQuantL tp fuel rest3 with
          | .error e => .error e
          | .ok (arg, rest4) =>
            match rest4 with
            | .arrow :: rest5 =>
              match parseTypeArrowL tp fuel rest5 with
              | .error e => .error e
              | .ok (ret, rest6) => .ok (.func ps arg ret, rest6)
            | _ :: _ => .error .unexpectedToken
            | [] => .error .unexpectedEof
        | _ :: _ => .error .unexpectedToken
        | [] => .error .unexpectedEof
    | .kwForAll :: _ :: _ => .error .unexpectedToken
    | .kwForAll :: [] => .error .unexpectedEof
    | _ =>
      match parseTypeQuantL tp fuel toks with
      | .error e => .error e
      | .ok (t, rest) =>
        match rest with
        | .arrow :: rest2 =>
          match parseTypeArrowL tp fuel rest2 with
          | .error e => .error e
          | .ok (ret, rest3) => .ok (.func [] t ret, rest3)
        | _ => .ok (t, rest)

/-- Pair level (lowest): right-associative `T1, …, Tn` with an optional
trailing `,`. -/
def parseTypePairL (tp : List Token → Except ParseErr (Ty × List Token)) :
    Nat → List Token → Except ParseErr (Ty × List Token)
  | 0, _ => .error .unexpectedEof
  | fuel + 1, toks =>
    match parseTypeArrowL tp fuel toks with
    | .error e => .error e
    | .ok (t, rest) =>
      match rest with
      | .comma :: rest2 =>
        if typeStarter rest2 then
          match parseTypePairL tp fuel rest2 with
          | .error e => .error e
          | .ok (t2, rest3) => .ok (.pair t t2, rest3)
        else .ok (t, rest2)
      | _ => .ok (t, rest)

/-- The full type grammar, tying the recursive knot through the fuel. -/
def parseTypeF : Nat → List Token → Except ParseErr (Ty × List Token)
  | 0, _ => .error .unexpectedEof
  | fuel + 1, toks => parseTypePairL (parseTypeF fuel) fuel toks

/-- Expression atoms: `()`, `(E)` grouping, bare ident as a `Copy` use. -/
def parseExprAtomL (ep : List Token → Except ParseErr (Expr × List Token))
    (toks : List Token) : Except ParseErr (Expr × List Token) :=
  match toks with
  | .lparen :: .rparen :: rest => .ok (.unit, rest)
  | .lparen :: rest =>
    match ep rest with
    | .error e => .error e
    | .ok (t, .rparen :: rest2) => .ok (t, rest2)
    | .ok (_, _ :: _) => .error .unexpectedToken
    | .ok (_, []) => .error .unexpectedEof
  | .name _ :: _ =>
    match parseIdentT toks with
    | .error e => .error e
    | .ok (id, rest) => .ok (.var .Copy id, rest)
  | _ :: _ => .error .unexpectedToken
  | [] => .error .unexpectedEof

/-- Move level: `move E` where `E` must be a variable reference; the `Copy`
usage becomes `Move`, and `move` applied to any other atom is a parse
error. -/
def parseExprOperandL (ep : List Token → Except ParseErr (Expr × List Token))
    (toks : List Token) : Except ParseErr (Expr × List Token) :=
  match toks with
  | .kwMove :: rest =>
    match parseExprAtomL ep rest with
    | .error e => .error e
    | .ok (.var .Copy id, rest2) => .ok (.var .Move id, rest2)
    | .ok (_, _) => .error .unexpectedToken
  | _ => parseExprAtomL ep toks

/-- The `{T1; …; Tn}` type-argument block of an expression application:
`n ≥ 1` (an empty block is rejected), `;`-separated with an optional
trailing `;`; stops before the closing `}`. -/
def parseTypeArgBlockF : Nat → List Token → Except ParseErr (List Ty × List Token)
  | 0, _ => .error .unexpectedEof
  | fuel + 1, toks =>
    match parseTypeF fuel toks with
    | .error e => .error e
    | .ok (t, rest) =>
      match rest with
      | .semi :: rest2 =>
        if typeStarter rest2 then
          match parseTypeArgBlockF fuel rest2 with
          | .error e => .error e
          | .ok (ts, rest3) => .ok (t :: ts, rest3)
        else .ok ([t], rest2)
      | _ => .ok ([t], rest)

/-- The application suffix loop for expressions: `C{T1; …}?(A)`, possibly
chained. -/
def parseExprSuffixL (ep : List Token → Except ParseErr (Expr × List Token)) :
    Nat → Expr → List Token → Except ParseErr (Expr × List Token)
  | 0, _, _ => .error .unexpectedEof
  | fuel + 1, acc, toks =>
    match toks with
    | .lbrace :: rest =>
      match parseTypeArgBlockF fuel rest with
      | .error e => .error e
      | .ok (ts, rest2) =>
        match rest2 with
        | .rbrace :: .lparen :: rest3 =>
          match ep rest3 with
          | .error e => .error e
          | .ok (a, .rparen :: rest4) => parseExprSuffixL ep fuel (.app acc ts a) rest4
          | .ok (_, _ :: _) => .error .unexpectedToken
          | .ok (_, []) => .error .unexpectedEof
        | _ :: _ => .error .unexpectedToken
        | [] => .error .unexpectedEof
    | .lparen :: rest =>
      match ep rest with
      | .error e => .error e
      | .ok (a, .rparen :: rest2) => parseExprSuffixL ep fuel (.app acc [] a) rest2
      | .ok (_, _ :: _) => .error .unexpectedToken
      | .ok (_, []) => .error .unexpectedEof
    | _ => .ok (acc, toks)

/-- Application level for expressions: an operand (atom or `move` atom)
followed by zero or more application suffixes. -/
def parseExprAppL (ep : List Token → Except ParseErr (Expr × List Token))
    (fuel : Nat) (toks : List Token) : Except ParseErr (Expr × List Token) :=
  match parseExprOperandL ep toks with
  | .error e => .error e
  | .ok (c, rest) => parseExprSuffixL ep fuel c rest

/-- The `,`-separated non-empty name list of a `let`, with an optional
trailing `,` (stops before a token that cannot start a name). -/
def parseLetNamesF : Nat → List Token → Except ParseErr (List Ident × List Token)
  | 0, _ => .error .unexpectedEof
  | fuel + 1, toks =>
    match parseIdentT toks with
    | .error e => .error e
    | .ok (id, rest) =>
      match rest with
      | .comma :: rest2 =>
        match rest2 with
        | .name _ :: _ =>
          match parseLetNamesF fuel rest2 with
          | .error e => .error e
          | .ok (ids, rest3) => .ok (id :: ids, rest3)
        | _ => .ok ([id], rest2)
      | _ => .ok ([id], rest)

/-- The `;`-separated non-empty ident list of a `let_exists` type block, with
an optional trailing `;`. -/
def parseIdentSemiListF : Nat → List Token → Except ParseErr (List Ident × List Token)
  | 0, _ => .error .unexpectedEof
  | fuel + 1, toks =>
    match parseIdentT toks with
    | .error e => .error e
    | .ok (id, rest) =>
      match rest with
      | .semi :: rest2 =>
        match rest2 with
        | .name _ :: _ =>
          match parseIdentSemiListF fuel rest2 with
          | .error e => .error e
          | .ok (ids, rest3) => .ok (id :: ids, rest3)
        | _ => .ok ([id], rest2)
      | _ => .ok ([id], rest)

/-- The `;`-separated non-empty `T = U` binding list of a `make_exists`, with
an optional trailing `;`. -/
def parseMakeParamsF : Nat → List Token → Except ParseErr (List (Ident × Ty) × List Token)
  | 0, _ => .error .unexpectedEof
  | fuel + 1, toks =>
    match parseIdentT toks with
    | .error e => .error e
    | .ok (id, rest) =>
      match rest with
      | .eqTok :: rest2 =>
        match parseTypeF fuel rest2 with
        | .error e => .error e
        | .ok (t, rest3) =>
          match rest3 with
          | .semi :: rest4 =>
            match rest4 with
            | .name _ :: _ =>
              match parseMakeParamsF fuel rest4 with
              | .error e => .error e
              | .ok (ps, rest5) => .ok ((id, t) :: ps, rest5)
            | _ => .ok ([(id, t)], rest4)
          | _ => .ok ([(id, t)], rest3)
      | _ :: _ => .error .unexpectedToken
      | [] => .error .unexpectedEof

/-- The `(N : T) -> B` tail of a `func` literal, shared by the versions with
and without a type-parameter block. -/
def parseFuncTail (ep : List Token → Except ParseErr (Expr × List Token))
    (fuel : Nat) (ps : List TypeParam) (toks : List Token) :
    Except ParseErr (Expr × List Token) :=
  match toks with
  | .lparen :: rest =>
    match parseIdentT rest with
    | .error e => .error e
    | .ok (an, rest2) =>
      match rest2 with
      | .colon :: rest3 =>
        match parseTypeF fuel rest3 with
        | .error e => .error e
        | .ok (at_, rest4) =>
          match rest4 with
          | .rparen :: .arrow :: rest5 =>
            match ep rest5 with
            | .error e => .error e
            | .ok (b, rest6) => .ok (.func ps an at_ b, rest6)
          | _ :: _ => .error .unexpectedToken
          | [] => .error .unexpectedEof
      | _ :: _ => .error .unexpectedToken
      | [] => .error .unexpectedEof
  | _ :: _ => .error .unexpectedToken
  | [] => .error .unexpectedEof

/-- Element level of the expression grammar (everything that can appear as a
component of a pair): the prefix `let`/`let_exists`/`make_exists` forms,
the `func` literal, or an application. -/
def parseExprElemL (ep : List Token → Except ParseErr (Expr × List Token))
    (fuel : Nat) (toks : List Token) : Except ParseErr (Expr × List Token) :=
  match toks with
  | .kwLet :: rest =>
    match parseLetNamesF fuel rest with
    | .error e => .error e
    | .ok (nms, rest2) =>
      match rest2 with
      | .eqTok :: rest3 =>
        match ep rest3 with
        | .error e => .error e
        | .ok (v, .kwIn :: rest4) =>
          match ep rest4 with
          | .error e => .error e
          | .ok (b, rest5) => .ok (.letE nms v b, rest5)
        | .ok (_, _ :: _) => .error .unexpectedToken
        | .ok (_, []) => .error .unexpectedEof
      | _ :: _ => .error .unexpectedToken
      | [] => .error .unexpectedEof
  | .kwLetExists :: .lbrace :: rest =>
    match parseIdentSemiListF fuel rest with
    | .error e => .error e
    | .ok (tns, rest2) =>
      match rest2 with
      | .rbrace :: rest3 =>
        match parseIdentT rest3 with
        | .error e => .error e
        | .ok (vn, rest4) =>
          match rest4 with
          | .eqTok :: rest5 =>
            match ep rest5 with
            | .error e => .error e
            | .ok (v, .kwIn :: rest6) =>
              match ep rest6 with
              | .error e => .error e
              | .ok (b, rest7) => .ok (.letExists tns vn v b, rest7)
            | .ok (_, _ :: _) => .error .unexpectedToken
            | .ok (_, []) => .error .unexpectedEof
          | _ :: _ => .error .unexpectedToken
          | [] => .error .unexpectedEof
      | _ :: _ => .error .unexpectedToken
      | [] => .error .unexpectedEof
  | .kwLetExists :: _ :: _ => .error .unexpectedToken
  | .kwLetExists :: [] => .error .unexpectedEof
  | .kwMakeExists :: .lbrace :: rest =>
    match parseMakeParamsF fuel rest with
    | .error e => .error e
    | .ok (ps, rest2) =>
      match rest2 with
      | .rbrace :: rest3 =>
        match parseTypeF fuel rest3 with
        | .error e => .error e
        | .ok (tb, rest4) =>
          match rest4 with
          | .kwOf :: rest5 =>
            match ep rest5 with
            | .error e => .error e
            | .ok (b, rest6) => .ok (.makeExists ps tb b, rest6)
          | _ :: _ => .error .unexpectedToken
          | [] => .error .unexpectedEof
      | _ :: _ => .error .unexpectedToken
      | [] => .error .unexpectedEof
  | .kwMakeExists :: _ :: _ => .error .unexpectedToken
  | .kwMakeExists :: [] => .error .unexpectedEof
  | .kwFunc :: rest =>
    match rest with
    | .lbrace :: rest1 =>
      match parseTypeParamListF fuel rest1 with
      | .error e => .error e
      | .ok (ps, rest2) =>
        match rest2 with
        | .rbrace :: rest3 => parseFuncTail ep fuel ps rest3
        | _ :: _ => .error .unexpectedToken
        | [] => .error .unexpectedEof
    | _ => parseFuncTail ep fuel [] rest
  | _ => parseExprAppL ep fuel toks

/-- True when the head token can start an expression. -/
def exprStarter : List Token → Bool
  | .name _ :: _ => true
  | .lparen :: _ => true
  | .kwMove :: _ => true
  | .kwLet :: _ => true
  | .kwLetExists :: _ => true
  | .kwMakeExists :: _ => true
  | .kwFunc :: _ => true
  | _ => false

/-- Pair level (lowest) for expressions: right-associative `E1, …, En` with
an optional trailing `,`. -/
def parseExprPairL (ep : List Token → Except ParseErr (Expr × List Token)) :
    Nat → List Token → Except ParseErr (Expr × List Token)
  | 0, _ => .error .unexpectedEof
  | fuel + 1, toks =>
    match parseExprElemL ep fuel toks with
    | .error e => .error e
    | .ok (t, rest) =>
      match rest with
      | .comma :: rest2 =>
        if exprStarter rest2 then
          match parseExprPairL ep fuel rest2 with
          | .error e => .error e
          | .ok (t2, rest3) => .ok (.pair t t2, rest3)
        else .ok (t, rest2)
      | _ => .ok (t, rest)

/-- The full expression grammar, tying the recursive knot through the
fuel. -/
def parseExprF : Nat → List Token → Except ParseErr (Expr × List Token)
  | 0, _ => .error .unexpectedEof
  | fuel + 1, toks => parseExprPairL (parseExprF fuel) fuel toks

/-! ## Entry points (from `src/parse/mod.rs`, with the grammar modelled). -/

/-- Run a token-level parser on a whole string: lex, parse, and require that
every token is consumed. -/
def runParse {α : Type} (p : List Token → Except ParseErr (α × List Token))
    (s : String) : Except ParseErr α :=
  match lex s with
  | .error k => .error (.lexError k)
  | .ok toks =>
    match p toks with
    | .error e => .error e
    | .ok (a, []) => .ok a
    | .ok (_, _ :: _) => .error .unexpectedToken

namespace parse

/-- Entry point `parse::ident` from `src/parse/mod.rs` (grammar modelled from the
spec). -/
def ident (s : String) : Except ParseErr Ident :=
  runParse parseIdentT s

/-- Entry point `parse::kind` from `src/parse/mod.rs` (grammar modelled from the
spec). -/
def kind (s : String) : Except ParseErr Kind :=
  runParse (fun toks => parseKindF (10 * (toks.length + 2)) toks) s

/-- Entry point `parse::type_` from `src/parse/mod.rs` (grammar modelled from the
spec). -/
def type_ (s : String) : Except ParseErr Ty :=
  runParse (fun toks => parseTypeF (10 * (toks.length + 2)) toks) s

/-- Entry point `parse::expr` from `src/parse/mod.rs` (grammar modelled from the
spec). -/
def expr (s : String) : Except ParseErr Expr :=
  runParse (fun toks => parseExprF (10 * (toks.length + 2)) toks) s

end parse

/-! ## Name environment (modelled from the spec, §4.3: module `names` is
absent).  An environment is an ordered, append-only list of idents; lookup
returns the zero-based index from the front; duplicate insertion fails and
reports the offending ident. -/

namespace names

/-- Modelled from the spec: `add(ident)` appends to the environment and
fails (reporting the ident) when an equal entry is already present. -/
def add_name (ns : List Ident) (i : Ident) : Except Ident (List Ident) :=
  if i ∈ ns then .error i else .ok (ns ++ [i])

/-- Push a sequence of names in order, failing on the first duplicate. -/
def add_names : List Ident → List Ident → Except Ident (List Ident)
  | ns, [] => .ok ns
  | ns, i :: rest =>
    match add_name ns i with
    | .error d => .error d
    | .ok ns2 => add_names ns2 rest

/-- Modelled from the spec: `lookup(ident)` returns the zero-based index
from the front of the environment, or nothing when the ident is absent. -/
def lookup : List Ident → Ident → Option Nat
  | [], _ => none
  | j :: rest, i =>
    if j = i then some 0
    else
      match lookup rest i with
      | none => none
      | some k => some (k + 1)

end names

/-! ## Internal trees (modelled from the spec, §3: the internal `Expr`/`Type`
modules are absent).  Every internal expression node records the pair
(number of value names in scope, number of type names in scope) at the point
where it was built; internal type nodes record the number of type names;
`Var` additionally records its de Bruijn index (from the front of the
environment); binders record only their arity. -/

/-- Modelled from the spec: the internal type tree.  The first field of each
constructor is the type-context size recorded at that node. -/
inductive ITy where
  | unit (free_types : Nat)
  | var (free_types : Nat) (index : Nat)
  | quantified (free_types : Nat) (quantifier : Quantifier) (kind : Kind) (body : ITy)
  | func (free_types : Nat) (param_kinds : List Kind) (arg : ITy) (ret : ITy)
  | pair (free_types : Nat) (left : ITy) (right : ITy)
  | app (free_types : Nat) (constructor : ITy) (param : ITy)

/-- Modelled from the spec: the internal expression tree.  The first two
fields of each constructor are the value-context and type-context sizes
recorded at that node; binders record their arity. -/
inductive IExpr where
  | unit (free_vars free_types : Nat)
  | var (free_vars free_types : Nat) (usage : VarUsage) (index : Nat)
  | func (free_vars free_types : Nat) (param_kinds : List Kind) (arg_type : ITy) (body : IExpr)
  | app (free_vars free_types : Nat) (callee : IExpr) (type_args : List ITy) (arg : IExpr)
  | pair (free_vars free_types : Nat) (left : IExpr) (right : IExpr)
  | letE (free_vars free_types : Nat) (arity : Nat) (val : IExpr) (body : IExpr)
  | letExists (free_vars free_types : Nat) (type_arity : Nat) (val : IExpr) (body : IExpr)
  | makeExists (free_vars free_types : Nat) (param_types : List ITy) (type_body : ITy) (body : IExpr)

/-- Modelled from the spec: `free_vars()` reports the value-context size
recorded at the root of an internal expression. -/
def IExpr.free_vars : IExpr → Nat
  | .unit fv _ => fv
  | .var fv _ _ _ => fv
  | .func fv _ _ _ _ => fv
  | .app fv _ _ _ _ => fv
  | .pair fv _ _ _ => fv
  | .letE fv _ _ _ _ => fv
  | .letExists fv _ _ _ _ => fv
  | .makeExists fv _ _ _ _ => fv

/-- Modelled from the spec: `free_types()` reports the type-context size
recorded at the root of an internal expression. -/
def IExpr.free_types : IExpr → Nat
  | .unit _ ft => ft
  | .var _ ft _ _ => ft
  | .func _ ft _ _ _ => ft
  | .app _ ft _ _ _ => ft
  | .pair _ ft _ _ => ft
  | .letE _ ft _ _ _ => ft
  | .letExists _ ft _ _ _ => ft
  | .makeExists _ ft _ _ _ => ft

/-! ## To-internal converter (modelled from the spec, §4.4: module
`to_internal` is absent). -/

namespace to_internal

/-- Which namespace a duplicate binding was attempted in. -/
inductive BindKind where
  | value
  | typeNs
deriving DecidableEq, Repr

/-- Modelled from the spec: conversion errors `UnboundVar`, `UnboundType`
and `DuplicateBinding` (idents are carried, offsets do not exist at this
stage). -/
inductive ConvertError where
  | unboundVar (name : Ident)
  | unboundType (name : Ident)
  | duplicateBinding (name : Ident) (ns : BindKind)

/-- From `src/parse/mod.rs` (test harness): the converter context holds the
two name environments. -/
structure Context where
  var_names : List Ident
  type_names : List Ident

/-- Modelled from the spec, §4.4, per-variant policy for types: `Unit` maps
to `Unit`; `Var` is looked up in the type environment; `Quantified` pushes
its one parameter around its body; `Func` pushes all parameters around both
`arg` and `ret` and records the parameter kinds; `Pair` and `App` convert
componentwise. -/
def convert_type (tns : List Ident) : Ty → Except ConvertError ITy
  | .unit => .ok (.unit tns.length)
  | .var id =>
    match names.lookup tns id with
    | some i => .ok (.var tns.length i)
    | none => .error (.unboundType id)
  | .quantified q p body =>
    match names.add_name tns p.ident with
    | .error d => .error (.duplicateBinding d .typeNs)
    | .ok tns2 =>
      match convert_type tns2 body with
      | .error e => .error e
      | .ok b => .ok (.quantified tns.length q p.kind b)
  | .func params arg ret =>
    match names.add_names tns (params.map (fun p => p.ident)) with
    | .error d => .error (.duplicateBinding d .typeNs)
    | .ok tns2 =>
      match convert_type tns2 arg with
      | .error e => .error e
      | .ok a =>
        match convert_type tns2 ret with
        | .error e => .error e
        | .ok r => .ok (.func tns.length (params.map (fun p => p.kind)) a r)
  | .pair l r =>
    match convert_type tns l with
    | .error e => .error e
    | .ok l2 =>
      match convert_type tns r with
      | .error e => .error e
      | .ok r2 => .ok (.pair tns.length l2 r2)
  | .app c p =>
    match convert_type tns c with
    | .error e => .error e
    | .ok c2 =>
      match convert_type tns p with
      | .error e => .error e
      | .ok p2 => .ok (.app tns.length c2 p2)

/-- Convert a list of types under one fixed type environment. -/
def convert_types (tns : List Ident) : List Ty → Except ConvertError (List ITy)
  | [] => .ok []
  | t :: rest =>
    match convert_type tns t with
    | .error e => .error e
    | .ok t2 =>
      match convert_types tns rest with
      | .error e => .error e
      | .ok rest2 => .ok (t2 :: rest2)

/-- Modelled from the spec, §4.4, per-variant policy for expressions.
`Var` is looked up in the value environment preserving its usage; `Func`
pushes its type parameters, converts the argument type under them, pushes
the argument name, and converts the body; `App` converts callee, type
arguments and argument under the unchanged context; `Let` converts the
bound value under the pre-`let` context, then pushes the names in order and
converts the body; `LetExists` converts the value first and then pushes its
type names and value name around the body; `MakeExists` converts each
witness type under the pre-`make_exists` context, converts `type_body`
under the pushed type names, and converts the body under the
pre-`make_exists` context again. -/
def convert_expr (ctx : Context) : Expr → Except ConvertError IExpr
  | .unit => .ok (.unit ctx.var_names.length ctx.type_names.length)
  | .var u id =>
    match names.lookup ctx.var_names id with
    | some i => .ok (.var ctx.var_names.length ctx.type_names.length u i)
    | none => .error (.unboundVar id)
  | .func tps argName argTy body =>
    match names.add_names ctx.type_names (tps.map (fun p => p.ident)) with
    | .error d => .error (.duplicateBinding d .typeNs)
    | .ok tns2 =>
      match convert_type tns2 argTy with
      | .error e => .error e
      | .ok aty =>
        match names.add_name ctx.var_names argName with
        | .error d => .error (.duplicateBinding d .value)
        | .ok vns2 =>
          match convert_expr ⟨vns2, tns2⟩ body with
          | .error e => .error e
          | .ok b =>
            .ok (.func ctx.var_names.length ctx.type_names.length
              (tps.map (fun p => p.kind)) aty b)
  | .app callee tas arg =>
    match convert_expr ctx callee with
    | .error e => .error e
    | .ok c =>
      match convert_types ctx.type_names tas with
      | .error e => .error e
      | .ok tas2 =>
        match convert_expr ctx arg with
        | .error e => .error e
        | .ok a => .ok (.app ctx.var_names.length ctx.type_names.length c tas2 a)
  | .pair l r =>
    match convert_expr ctx l with
    | .error e => .error e
    | .ok l2 =>
      match convert_expr ctx r with
      | .error e => .error e
      | .ok r2 => .ok (.pair ctx.var_names.length ctx.type_names.length l2 r2)
  | .letE nms val body =>
    match convert_expr ctx val with
    | .error e => .error e
    | .ok v2 =>
      match names.add_names ctx.var_names nms with
      | .error d => .error (.duplicateBinding d .value)
      | .ok vns2 =>
        match convert_expr ⟨vns2, ctx.type_names⟩ body with
        | .error e => .error e
        | .ok b =>
          .ok (.letE ctx.var_names.length ctx.type_names.length nms.length v2 b)
  | .letExists tnames vname val body =>
    match convert_expr ctx val with
    | .error e => .error e
    | .ok v2 =>
      match names.add_names ctx.type_names tnames with
      | .error d => .error (.duplicateBinding d .typeNs)
      | .ok tns2 =>
        match names.add_name ctx.var_names vname with
        | .error d => .error (.duplicateBinding d .value)
        | .ok vns2 =>
          match convert_expr ⟨vns2, tns2⟩ body with
          | .error e => .error e
          | .ok b =>
            .ok (.letExists ctx.var_names.length ctx.type_names.length
              tnames.length v2 b)
  | .makeExists params tbody body =>
    match convert_types ctx.type_names (params.map (fun p => p.2)) with
    | .error e => .error e
    | .ok wtys =>
      match names.add_names ctx.type_names (params.map (fun p => p.1)) with
      | .error d => .error (.duplicateBinding d .typeNs)
      | .ok tns2 =>
        match convert_type tns2 tbody with
        | .error e => .error e
        | .ok tb =>
          match convert_expr ctx body with
          | .error e => .error e
          | .ok b =>
            .ok (.makeExists ctx.var_names.length ctx.type_names.length wtys tb b)

end to_internal

/-! ## Well-formedness checkers for internal trees.

`check_type nt t` (resp. `check_expr nv nt e`) walks an internal tree with
the expected context sizes, verifying at every node that the recorded
context sizes equal the expected ones, that every `Var` index is strictly
below its recorded context size, and that each binder grows the expected
size of its own namespace by its arity. -/

/-- Verify an internal type against an expected type-context size `nt`. -/
def check_type (nt : Nat) : ITy → Bool
  | .unit ft => ft == nt
  | .var ft i => ft == nt && i.blt nt
  | .quantified ft _ _ body => ft == nt && check_type (nt + 1) body
  | .func ft ks arg ret =>
    ft == nt && check_type (nt + ks.length) arg && check_type (nt + ks.length) ret
  | .pair ft l r => ft == nt && check_type nt l && check_type nt r
  | .app ft c p => ft == nt && check_type nt c && check_type nt p

/-- Verify an internal expression against expected value- and type-context
sizes `nv` and `nt`. -/
def check_expr (nv nt : Nat) : IExpr → Bool
  | .unit fv ft => fv == nv && ft == nt
  | .var fv ft _ i => fv == nv && ft == nt && i.blt nv
  | .func fv ft ks aty body =>
    fv == nv && ft == nt && check_type (nt + ks.length) aty &&
      check_expr (nv + 1) (nt + ks.length) body
  | .app fv ft callee tas arg =>
    fv == nv && ft == nt && check_expr nv nt callee &&
      tas.all (check_type nt) && check_expr nv nt arg
  | .pair fv ft l r => fv == nv && ft == nt && check_expr nv nt l && check_expr nv nt r
  | .letE fv ft arity val body =>
    fv == nv && ft == nt && check_expr nv nt val && check_expr (nv + arity) nt body
  | .letExists fv ft tarity val body =>
    fv == nv && ft == nt && check_expr nv nt val &&
      check_expr (nv + 1) (nt + tarity) body
  | .makeExists fv ft ptys tbody body =>
    fv == nv && ft == nt && ptys.all (check_type nt) &&
      check_type (nt + ptys.length) tbody && check_expr nv nt body

/-! ## Quoted-name escaping (for the quote-escape round-trip property). -/

/-- Escape a name for quoting: each backslash becomes a double backslash and
each backtick becomes backslash-backtick. -/
def escapeChars : List Char → List Char
  | [] => []
  | c :: rest =>
    if c = '\\' then '\\' :: '\\' :: escapeChars rest
    else if c = backtickChar then '\\' :: backtickChar :: escapeChars rest
    else c :: escapeChars rest

/-- Wrap an escaped name in backticks, producing a quoted-name source
form. -/
def quoteName (t : String) : String :=
  String.mk (backtickChar :: (escapeChars t.data ++ [backtickChar]))

/-- Printable-ASCII predicate on a string (code points 32 to 126). -/
def printableAscii (t : String) : Prop :=
  ∀ c ∈ t.data, 32 ≤ c.toNat ∧ c.toNat ≤ 126

instance (t : String) : Decidable (printableAscii t) := by
  unfold printableAscii
  infer_instance

/-! ## Helper lemmas -/

/-- Successful `add_name` appends the ident at the back. -/
theorem add_name_ok {ns : List Ident} {i : Ident} {ns2 : List Ident}
    (h : names.add_name ns i = .ok ns2) : ns2 = ns ++ [i] := by
  unfold names.add_name at h
  split at h
  · exact absurd h (by simp)
  · simpa using h.symm

/-- Successful `add_names` appends the pushed names in order. -/
theorem add_names_ok : ∀ {l ns ns2 : List Ident},
    names.add_names ns l = .ok ns2 → ns2 = ns ++ l := by
  intro l
  induction l with
  | nil => intro ns ns2 h; simpa [names.add_names] using h.symm
  | cons i rest ih =>
    intro ns ns2 h
    unfold names.add_names at h
    cases h1 : names.add_name ns i with
    | error d => rw [h1] at h; exact absurd h (by simp)
    | ok nsMid =>
      rw [h1] at h
      have h2 := ih h
      rw [h2, add_name_ok h1]
      simp

/-- A successful lookup returns an index below the environment length. -/
theorem lookup_lt : ∀ {ns : List Ident} {i : Ident} {k : Nat},
    names.lookup ns i = some k → k < ns.length := by
  intro ns
  induction ns with
  | nil => intro i k h; exact absurd h (by simp [names.lookup])
  | cons j rest ih =>
    intro i k h
    unfold names.lookup at h
    split at h
    · cases h; simp
    · cases h2 : names.lookup rest i with
      | none => rw [h2] at h; exact absurd h (by simp)
      | some k2 =>
        rw [h2] at h
        cases h
        have := ih h2
        simpa using Nat.succ_lt_succ this

/-- Conversion of a type list preserves the list length. -/
theorem convert_types_length : ∀ {l : List Ty} {tns : List Ident} {l2 : List ITy},
    to_internal.convert_types tns l = .ok l2 → l2.length = l.length := by
  intro l
  induction l with
  | nil => intro tns l2 h; simpa [to_internal.convert_types] using h.symm
  | cons t rest ih =>
    intro tns l2 h
    unfold to_internal.convert_types at h
    cases h1 : to_internal.convert_type tns t with
    | error e => rw [h1] at h; exact absurd h (by simp)
    | ok t2 =>
      rw [h1] at h
      cases h2 : to_internal.convert_types tns rest with
      | error e => rw [h2] at h; exact absurd h (by simp)
      | ok rest2 =>
        rw [h2] at h
        cases h
        simpa using ih h2

/-- Conversion of a type under an environment of length `nt` produces a tree
that passes `check_type nt`. -/
theorem convert_type_check : ∀ (t : Ty) {tns : List Ident} {it : ITy},
    to_internal.convert_type tns t = .ok it → check_type tns.length it = true := by
  intro t
  induction t with
  | unit =>
    intro tns it h
    simp only [to_internal.convert_type] at h
    cases h
    simp [check_type]
  | var id =>
    intro tns it h
    simp only [to_internal.convert_type] at h
    cases h1 : names.lookup tns id with
    | none => rw [h1] at h; exact absurd h (by simp)
    | some i =>
      rw [h1] at h
      cases h
      simp [check_type, Nat.blt_eq, lookup_lt h1]
  | quantified q p body ih =>
    intro tns it h
    simp only [to_internal.convert_type] at h
    split at h
    · exact absurd h (by simp)
    · rename_i tns2 h1
      split at h
      · exact absurd h (by simp)
      · rename_i b h2
        cases h
        have hb := ih h2
        have hlen : tns2.length = tns.length + 1 := by
          rw [add_name_ok h1]; simp
        rw [hlen] at hb
        simp [check_type, hb]
  | func params arg ret ih_arg ih_ret =>
    intro tns it h
    simp only [to_internal.convert_type] at h
    split at h
    · exact absurd h (by simp)
    · rename_i tns2 h1
      split at h
      · exact absurd h (by simp)
      · rename_i a h2
        split at h
        · exact absurd h (by simp)
        · rename_i r h3
          cases h
          have hlen : tns2.length = tns.length + params.length := by
            rw [add_names_ok h1]; simp
          have ha := ih_arg h2
          have hr := ih_ret h3
          rw [hlen] at ha hr
          simp [check_type, List.length_map, ha, hr]
  | pair l r ih_l ih_r =>
    intro tns it h
    simp only [to_internal.convert_type] at h
    cases h1 : to_internal.convert_type tns l with
    | error e => rw [h1] at h; exact absurd h (by simp)
    | ok l2 =>
      rw [h1] at h
      cases h2 : to_internal.convert_type tns r with
      | error e => rw [h2] at h; exact absurd h (by simp)
      | ok r2 =>
        rw [h2] at h
        cases h
        simp [check_type, ih_l h1, ih_r h2]
  | app c p ih_c ih_p =>
    intro tns it h
    simp only [to_internal.convert_type] at h
    cases h1 : to_internal.convert_type tns c with
    | error e => rw [h1] at h; exact absurd h (by simp)
    | ok c2 =>
      rw [h1] at h
      cases h2 : to_internal.convert_type tns p with
      | error e => rw [h2] at h; exact absurd h (by simp)
      | ok p2 =>
        rw [h2] at h
        cases h
        simp [check_type, ih_c h1, ih_p h2]

/-- Conversion of a type list under an environment of length `nt` gives trees
that all pass `check_type nt`. -/
theorem convert_types_check : ∀ {l : List Ty} {tns : List Ident} {l2 : List ITy},
    to_internal.convert_types tns l = .ok l2 → l2.all (check_type tns.length) = true := by
  intro l
  induction l with
  | nil => intro tns l2 h; cases h; simp
  | cons t rest ih =>
    intro tns l2 h
    unfold to_internal.convert_types at h
    cases h1 : to_internal.convert_type tns t with
    | error e => rw [h1] at h; exact absurd h (by simp)
    | ok t2 =>
      rw [h1] at h
      cases h2 : to_internal.convert_types tns rest with
      | error e => rw [h2] at h; exact absurd h (by simp)
      | ok rest2 =>
        rw [h2] at h
        cases h
        simp [convert_type_check t h1, ih h2]

/-- Conversion of an expression under environments of sizes `nv`, `nt`
produces a tree that passes `check_expr nv nt`: the recorded context sizes
agree with the enclosing binder structure everywhere and every variable
index is in range. -/
theorem convert_expr_check : ∀ (e : Expr) {ctx : to_internal.Context} {ie : IExpr},
    to_internal.convert_expr ctx e = .ok ie →
    check_expr ctx.var_names.length ctx.type_names.length ie = true := by
  intro e
  induction e with
  | unit =>
    intro ctx ie h
    simp only [to_internal.convert_expr] at h
    cases h
    simp [check_expr]
  | var u id =>
    intro ctx ie h
    simp only [to_internal.convert_expr] at h
    split at h
    · rename_i i h1
      cases h
      simp [check_expr, Nat.blt_eq, lookup_lt h1]
    · exact absurd h (by simp)
  | func tps an aty body ih =>
    intro ctx ie h
    simp only [to_internal.convert_expr] at h
    split at h
    · exact absurd h (by simp)
    · rename_i tns2 h1
      split at h
      · exact absurd h (by simp)
      · rename_i aty2 h2
        split at h
        · exact absurd h (by simp)
        · rename_i vns2 h3
          split at h
          · exact absurd h (by simp)
          · rename_i b h4
            cases h
            have hlt : tns2.length = ctx.type_names.length + tps.length := by
              rw [add_names_ok h1]; simp
            have hlv : vns2.length = ctx.var_names.length + 1 := by
              rw [add_name_ok h3]; simp
            have haty := convert_type_check aty h2
            have hb := ih h4
            simp only at hb
            rw [hlt] at haty
            rw [hlv, hlt] at hb
            simp [check_expr, List.length_map, haty, hb]
  | app callee tas arg ih_c ih_a =>
    intro ctx ie h
    simp only [to_internal.convert_expr] at h
    split at h
    · exact absurd h (by simp)
    · rename_i c h1
      split at h
      · exact absurd h (by simp)
      · rename_i tas2 h2
        split at h
        · exact absurd h (by simp)
        · rename_i a h3
          cases h
          simp [check_expr, ih_c h1, ih_a h3, convert_types_check h2]
  | pair l r ih_l ih_r =>
    intro ctx ie h
    simp only [to_internal.convert_expr] at h
    split at h
    · exact absurd h (by simp)
    · rename_i l2 h1
      split at h
      · exact absurd h (by simp)
      · rename_i r2 h2
        cases h
        simp [check_expr, ih_l h1, ih_r h2]
  | letE nms val body ih_v ih_b =>
    intro ctx ie h
    simp only [to_internal.convert_expr] at h
    split at h
    · exact absurd h (by simp)
    · rename_i v2 h1
      split at h
      · exact absurd h (by simp)
      · rename_i vns2 h2
        split at h
        · exact absurd h (by simp)
        · rename_i b h3
          cases h
          have hlv : vns2.length = ctx.var_names.length + nms.length := by
            rw [add_names_ok h2]; simp
          have hb := ih_b h3
          simp only at hb
          rw [hlv] at hb
          simp [check_expr, ih_v h1, hb]
  | letExists tnames vname val body ih_v ih_b =>
    intro ctx ie h
    simp only [to_internal.convert_expr] at h
    split at h
    · exact absurd h (by simp)
    · rename_i v2 h1
      split at h
      · exact absurd h (by simp)
      · rename_i tns2 h2
        split at h
        · exact absurd h (by simp)
        · rename_i vns2 h3
          split at h
          · exact absurd h (by simp)
          · rename_i b h4
            cases h
            have hlt : tns2.length = ctx.type_names.length + tnames.length := by
              rw [add_names_ok h2]; simp
            have hlv : vns2.length = ctx.var_names.length + 1 := by
              rw [add_name_ok h3]; simp
            have hb := ih_b h4
            simp only at hb
            rw [hlv, hlt] at hb
            simp [check_expr, ih_v h1, hb]
  | makeExists params tbody body ih_b =>
    intro ctx ie h
    simp only [to_internal.convert_expr] at h
    split at h
    · exact absurd h (by simp)
    · rename_i wtys h1
      split at h
      · exact absurd h (by simp)
      · rename_i tns2 h2
        split at h
        · exact absurd h (by simp)
        · rename_i tb h3
          split at h
          · exact absurd h (by simp)
          · rename_i b h4
            cases h
            have hlt : tns2.length = ctx.type_names.length + params.length := by
              rw [add_names_ok h2]; simp
            have hwl : wtys.length = params.length := by
              have := convert_types_length h1
              simpa using this
            have htb := convert_type_check tbody h3
            rw [hlt] at htb
            simp [check_expr, convert_types_check h1, hwl, htb, ih_b h4]

/-- A tree passing `check_expr nv nt` reports `nv` free value variables and
`nt` free type variables at its root. -/
theorem check_expr_counts {nv nt : Nat} {ie : IExpr}
    (h : check_expr nv nt ie = true) :
    ie.free_vars = nv ∧ ie.free_types = nt := by
  cases ie <;> simp_all [check_expr, IExpr.free_vars, IExpr.free_types]

/-! ## Claim theorems -/

/-- C1: whenever `convert_expr` succeeds under a converter context holding
the pre-declared free value names `V` and free type names `T`, the returned
internal tree reports `free_vars = |V|` and `free_types = |T|`; in
particular a fully closed term (both environments empty) reports both
counts zero.  (The count equation needs no assumption on the expression's
free names beyond the success of the conversion itself.) -/
theorem converter_reports_env_sizes (ctx : to_internal.Context) (e : Expr)
    (ie : IExpr) (h : to_internal.convert_expr ctx e = .ok ie) :
    ie.free_vars = ctx.var_names.length ∧ ie.free_types = ctx.type_names.length :=
  check_expr_counts (convert_expr_check e h)

/-- Witness for C1: converting `move a` under a value environment `{a}` and
an empty type environment reports one free value variable and no free type
variables. -/
theorem converter_reports_env_sizes_witness :
    (IExpr.var 1 0 .Move 0).free_vars = 1 ∧ (IExpr.var 1 0 .Move 0).free_types = 0 :=
  converter_reports_env_sizes ⟨[⟨"a", 0⟩], []⟩ (.var .Move ⟨"a", 0⟩) _ (by rfl)

/-- C2: every internal tree produced by a successful `convert_expr` passes
`check_expr`, which demands at every node that the recorded context size of
each namespace equal the supplied environment size plus the number of
enclosing binders of that namespace, and at every internal `Var` that
`index < context_size_at_reference`. -/
theorem converter_var_indices_in_range (ctx : to_internal.Context) (e : Expr)
    (ie : IExpr) (h : to_internal.convert_expr ctx e = .ok ie) :
    check_expr ctx.var_names.length ctx.type_names.length ie = true :=
  convert_expr_check e h

/-- Witness for C2: the conversion of `let x, y, z = () in (x, y, z)` under
empty environments passes the checker (indices 0, 1, 2 against context
size 3). -/
theorem converter_var_indices_in_range_witness :
    check_expr 0 0
      (.letE 0 0 3 (.unit 0 0)
        (.pair 3 0 (.var 3 0 .Copy 0)
          (.pair 3 0 (.var 3 0 .Copy 1) (.var 3 0 .Copy 2)))) = true :=
  converter_var_indices_in_range ⟨[], []⟩
    (.letE [⟨"x", 0⟩, ⟨"y", 0⟩, ⟨"z", 0⟩] .unit
      (.pair (.var .Copy ⟨"x", 0⟩)
        (.pair (.var .Copy ⟨"y", 0⟩) (.var .Copy ⟨"z", 0⟩)))) _ (by rfl)

/-- C3: converting `Let{names, val, body}` converts `val` under the
pre-`let` context (no let-bound name visible), then pushes `names` in order
(the body's value environment is the old one with `names` appended) and
converts `body` under it; consequently a let-bound name that is not already
in the outer value environment cannot be referenced from the let's own
right-hand side — such a reference fails with `UnboundVar`. -/
theorem let_scopes_value_under_pre_context (ctx : to_internal.Context)
    (nms : List Ident) (val body : Expr) :
    (∀ ie, to_internal.convert_expr ctx (.letE nms val body) = .ok ie →
      ∃ v2 b, to_internal.convert_expr ctx val = .ok v2 ∧
        to_internal.convert_expr ⟨ctx.var_names ++ nms, ctx.type_names⟩ body = .ok b ∧
        ie = .letE ctx.var_names.length ctx.type_names.length nms.length v2 b) ∧
    (∀ (u : VarUsage) (x : Ident), x ∈ nms → names.lookup ctx.var_names x = none →
      to_internal.convert_expr ctx (.letE nms (.var u x) body) =
        .error (.unboundVar x)) := by
  constructor
  · intro ie h
    simp only [to_internal.convert_expr] at h
    split at h
    · exact absurd h (by simp)
    · rename_i v2 h1
      split at h
      · exact absurd h (by simp)
      · rename_i vns2 h2
        split at h
        · exact absurd h (by simp)
        · rename_i b h3
          cases h
          refine ⟨v2, b, h1, ?_, rfl⟩
          rw [← add_names_ok h2]
          exact h3
  · intro u x hmem hlook
    simp only [to_internal.convert_expr, hlook]

/-- Witness for C3: under empty environments and `names = [x]`, the
conversion of `let x = () in ()` factors as described, and
`let x = x in ()` fails with `UnboundVar x`. -/
theorem let_scopes_value_under_pre_context_witness :
    (∃ v2 b, to_internal.convert_expr ⟨[], []⟩ Expr.unit = .ok v2 ∧
      to_internal.convert_expr ⟨[] ++ [(⟨"x", 0⟩ : Ident)], []⟩ Expr.unit = .ok b ∧
      (IExpr.letE 0 0 1 (.unit 0 0) (.unit 1 0)) = .letE 0 0 1 v2 b) ∧
    to_internal.convert_expr ⟨[], []⟩
      (.letE [⟨"x", 0⟩] (.var .Copy ⟨"x", 0⟩) .unit) =
      .error (.unboundVar ⟨"x", 0⟩) :=
  ⟨(let_scopes_value_under_pre_context ⟨[], []⟩ [⟨"x", 0⟩] .unit .unit).1
      (.letE 0 0 1 (.unit 0 0) (.unit 1 0)) (by rfl),
    (let_scopes_value_under_pre_context ⟨[], []⟩ [⟨"x", 0⟩] .unit .unit).2
      .Copy ⟨"x", 0⟩ (by decide) (by rfl)⟩

/-- C4: the surface type tree represents existential types with the variant
`Quantified` carrying a quantifier field ranging over `{Exists, ForAll}`
(the `Ty.quantified` constructor of this development, from
`src/parse/syntax.rs`), and the quantifier production of the grammar turns
`exists {P} B` into `Quantified{Exists, P, B}` with exactly one type
parameter per `exists` keyword: whatever the quantifier-level parser
returns on an input beginning with the `exists` keyword is a
single-parameter `Quantified Exists` node, and the concrete source form
`exists {t : *} t` parses to exactly that shape. -/
theorem exists_parses_to_quantified_exists :
    (∀ (tp : List Token → Except ParseErr (Ty × List Token)) (fuel : Nat)
      (toks : List Token) (t : Ty) (rest : List Token),
      parseTypeQuantL tp fuel (Token.kwExists :: toks) = .ok (t, rest) →
      ∃ p b, t = .quantified .Exists p b) ∧
    parse.type_ ("exists {t : *} t") =
      .ok (.quantified .Exists ⟨⟨"t", 0⟩, .ty⟩ (.var ⟨"t", 0⟩)) := by
  constructor
  · intro tp fuel toks t rest h
    match fuel with
    | 0 => exact absurd h (by simp [parseTypeQuantL])
    | fuel + 1 =>
      cases toks with
      | nil => exact absurd h (by simp [parseTypeQuantL])
      | cons tk toks2 =>
        cases tk <;> simp only [parseTypeQuantL] at h <;>
          try exact absurd h (by simp)
        split at h
        · exact absurd h (by simp)
        · rename_i p rest2 h1
          split at h
          · rename_i rest3
            split at h
            · exact absurd h (by simp)
            · rename_i b rest4 h2
              cases h
              exact ⟨p, b, rfl⟩
          · exact absurd h (by simp)
          · exact absurd h (by simp)
  · rfl

/-- Witness for C4: the quantifier-level parse of the token form of
`exists {t : *} t` is a one-parameter `Quantified Exists` node. -/
theorem exists_parses_to_quantified_exists_witness :
    ∃ p b, Ty.quantified .Exists ⟨⟨"t", 0⟩, .ty⟩ (.var ⟨"t", 0⟩) =
      .quantified .Exists p b :=
  exists_parses_to_quantified_exists.1 (fun _ => .error .unexpectedEof) 10
    [.lbrace, .name ("t"), .colon, .star, .rbrace, .name ("t")]
    (.quantified .Exists ⟨⟨"t", 0⟩, .ty⟩ (.var ⟨"t", 0⟩)) [] (by rfl)

/-- C5: an ident is a name optionally followed by `#` and an integer, the
integer becoming `collision_id`; an absent tag gives `collision_id = 0`;
whitespace and comments may separate the name, the `#` and the integer
(they produce no tokens, so the token-level parse is unchanged, as the
concrete conjuncts show end-to-end); and `#` followed by anything other
than an integer is a parse error. -/
theorem ident_collision_tag_parsing :
    (∀ (s : String) (v : Nat) (rest : List Token),
      parseIdentT (.name s :: .hash :: .int v :: rest) = .ok (⟨s, v⟩, rest)) ∧
    (∀ s : String, parseIdentT [.name s] = .ok (⟨s, 0⟩, [])) ∧
    parse.ident ("foo#42") = .ok ⟨"foo", 42⟩ ∧
    parse.ident ("foo") = .ok ⟨"foo", 0⟩ ∧
    parse.ident ("foo // comment 1 \n # // comment 2 \n 42") = .ok ⟨"foo", 42⟩ ∧
    (∀ (s : String) (t : Token) (rest : List Token), (∀ v, t ≠ .int v) →
      parseIdentT (.name s :: .hash :: t :: rest) = .error .unexpectedToken) ∧
    parse.ident ("foo#bar") = .error .unexpectedToken := by
  refine ⟨fun s v rest => rfl, fun s => rfl, rfl, rfl, rfl, ?_, rfl⟩
  intro s t rest hnotint
  cases t <;> simp [parseIdentT]
  exact absurd rfl (hnotint _)

/-- Witness for C5: `#` followed by a `;` token is rejected. -/
theorem ident_collision_tag_parsing_witness :
    parseIdentT [.name ("foo"), .hash, .semi] = .error .unexpectedToken :=
  ident_collision_tag_parsing.2.2.2.2.2.1 ("foo") .semi [] (fun v => by simp)

/-- C6: a type application `C(A1; …; An)` with `n ≥ 1` arguments and an
optional trailing `;` left-folds into `App`: whatever the argument-list
parser returns is a left fold of the (non-empty) argument list over the
constructor by `App`, and on the concrete forms `foo(bar)`,
`foo(bar; baz)` and `foo(bar; baz;)` the result is the left-nested
application. -/
theorem type_application_left_folds :
    (∀ (tp : List Token → Except ParseErr (Ty × List Token)) (fuel : Nat)
      (acc : Ty) (toks : List Token) (t : Ty) (rest : List Token),
      parseTypeArgsL tp fuel acc toks = .ok (t, rest) →
      ∃ args : List Ty, args ≠ [] ∧ t = args.foldl Ty.app acc) ∧
    parse.type_ ("foo(bar)") = .ok (.app (.var ⟨"foo", 0⟩) (.var ⟨"bar", 0⟩)) ∧
    parse.type_ ("foo(bar; baz)") =
      .ok (.app (.app (.var ⟨"foo", 0⟩) (.var ⟨"bar", 0⟩)) (.var ⟨"baz", 0⟩)) ∧
    parse.type_ ("foo(bar; baz;)") =
      .ok (.app (.app (.var ⟨"foo", 0⟩) (.var ⟨"bar", 0⟩)) (.var ⟨"baz", 0⟩)) := by
  refine ⟨?_, rfl, rfl, rfl⟩
  intro tp fuel
  induction fuel with
  | zero =>
    intro acc toks t rest h
    exact absurd h (by simp [parseTypeArgsL])
  | succ fuel ih =>
    intro acc toks t rest h
    simp only [parseTypeArgsL] at h
    split at h
    · exact absurd h (by simp)
    · rename_i a rest1 h1
      split at h
      · rename_i rest2
        cases h
        exact ⟨[a], by simp, by simp⟩
      · obtain ⟨args, hne, heq⟩ := ih _ _ t rest h
        exact ⟨a :: args, by simp, by simpa using heq⟩
      · rename_i rest2
        cases h
        exact ⟨[a], by simp, by simp⟩
      · exact absurd h (by simp)
      · exact absurd h (by simp)

/-- Witness for C6: parsing the argument tokens `bar; baz)` against the
constructor `foo` yields a tree that is a left fold of a non-empty argument
list by `App`. -/
theorem type_application_left_folds_witness :
    ∃ args : List Ty, args ≠ [] ∧
      Ty.app (.app (.var ⟨"foo", 0⟩) (.var ⟨"bar", 0⟩)) (.var ⟨"baz", 0⟩) =
        args.foldl Ty.app (.var ⟨"foo", 0⟩) :=
  type_application_left_folds.1 (parseTypeF 10) 10 (.var ⟨"foo", 0⟩)
    [.name ("bar"), .semi, .name ("baz"), .rparen]
    (.app (.app (.var ⟨"foo", 0⟩) (.var ⟨"bar", 0⟩)) (.var ⟨"baz", 0⟩)) [] (by rfl)

/-- C7: a comma-separated sequence of `n ≥ 2` types (and likewise
expressions), with an optional trailing comma, nests to the right: when the
element parser yields `T1` followed by a comma and the pair parser yields
`T2` on the whole remainder, the pair parser on the original input yields
`Pair{T1, T2}` (so the recursion is on the right component); on
`foo, bar, baz` (with or without a trailing comma) the concrete result is
the right-nested pair, for types and for expressions. -/
theorem pair_lists_nest_right :
    (∀ (tp : List Token → Except ParseErr (Ty × List Token)) (fuel : Nat)
      (toks : List Token) (t1 t2 : Ty) (rest2 rest3 : List Token),
      parseTypeArrowL tp fuel toks = .ok (t1, .comma :: rest2) →
      typeStarter rest2 = true →
      parseTypePairL tp fuel rest2 = .ok (t2, rest3) →
      parseTypePairL tp (fuel + 1) toks = .ok (.pair t1 t2, rest3)) ∧
    (∀ (ep : List Token → Except ParseErr (Expr × List Token)) (fuel : Nat)
      (toks : List Token) (e1 e2 : Expr) (rest2 rest3 : List Token),
      parseExprElemL ep fuel toks = .ok (e1, .comma :: rest2) →
      exprStarter rest2 = true →
      parseExprPairL ep fuel rest2 = .ok (e2, rest3) →
      parseExprPairL ep (fuel + 1) toks = .ok (.pair e1 e2, rest3)) ∧
    parse.type_ ("foo, bar, baz") =
      .ok (.pair (.var ⟨"foo", 0⟩) (.pair (.var ⟨"bar", 0⟩) (.var ⟨"baz", 0⟩))) ∧
    parse.type_ ("foo, bar, baz,") =
      .ok (.pair (.var ⟨"foo", 0⟩) (.pair (.var ⟨"bar", 0⟩) (.var ⟨"baz", 0⟩))) ∧
    parse.expr ("foo, bar, baz") =
      .ok (.pair (.var .Copy ⟨"foo", 0⟩)
        (.pair (.var .Copy ⟨"bar", 0⟩) (.var .Copy ⟨"baz", 0⟩))) ∧
    parse.expr ("foo, bar, baz,") =
      .ok (.pair (.var .Copy ⟨"foo", 0⟩)
        (.pair (.var .Copy ⟨"bar", 0⟩) (.var .Copy ⟨"baz", 0⟩))) := by
  refine ⟨?_, ?_, rfl, rfl, rfl, rfl⟩
  · intro tp fuel toks t1 t2 rest2 rest3 h1 h2 h3
    simp [parseTypePairL, h1, h2, h3]
  · intro ep fuel toks e1 e2 rest2 rest3 h1 h2 h3
    simp [parseExprPairL, h1, h2, h3]

/-- Witness for C7: on the token form of `bar, baz` the type pair parser
recurses into the right component, giving `Pair{bar, baz}`. -/
theorem pair_lists_nest_right_witness :
    parseTypePairL (parseTypeF 20) 21 [.name ("bar"), .comma, .name ("baz")] =
      .ok (.pair (.var ⟨"bar", 0⟩) (.var ⟨"baz", 0⟩), []) :=
  pair_lists_nest_right.1 (parseTypeF 20) 20 [.name ("bar"), .comma, .name ("baz")]
    (.var ⟨"bar", 0⟩) (.var ⟨"baz", 0⟩) [.name ("baz")] []
    (by rfl) (by rfl) (by rfl)

/-- C8: in every separator position of the grammar, parsing with a trailing
separator equals parsing without one.  The conjuncts cover each separator
position in turn: `;` in kind constructor parameter lists, `;` in `forall`
type-parameter lists, `;` in type application argument lists, `,` in type
pair lists, `,` in expression pair lists, `;` in expression application
type-argument blocks, `;` in `func` type-parameter blocks, `,` in `let`
name lists, `;` in `let_exists` type-name blocks, and `;` in `make_exists`
binding blocks. -/
theorem trailing_separator_idempotent :
    parse.kind ("(*; (*) -> *; *;) -> Place") = parse.kind ("(*; (*) -> *; *) -> Place") ∧
    parse.type_ ("forall {t : *; u : *;} t -> u") = parse.type_ ("forall {t : *; u : *} t -> u") ∧
    parse.type_ ("foo(bar; baz;)") = parse.type_ ("foo(bar; baz)") ∧
    parse.type_ ("foo, bar, baz,") = parse.type_ ("foo, bar, baz") ∧
    parse.expr ("foo, bar, baz,") = parse.expr ("foo, bar, baz") ∧
    parse.expr ("hello{T; U;}(move world)") = parse.expr ("hello{T; U}(move world)") ∧
    parse.expr ("func {T : *; U : *;} (x : T) -> move x") =
      parse.expr ("func {T : *; U : *} (x : T) -> move x") ∧
    parse.expr ("let x, y, = move z in ()") = parse.expr ("let x, y = move z in ()") ∧
    parse.expr ("let_exists {T; U;} x = move y in move x") =
      parse.expr ("let_exists {T; U} x = move y in move x") ∧
    parse.expr ("make_exists {T = Foo; U = Bar;} T -> U of move f") =
      parse.expr ("make_exists {T = Foo; U = Bar} T -> U of move f") :=
  ⟨rfl, rfl, rfl, rfl, rfl, rfl, rfl, rfl, rfl, rfl⟩

/-- Scanning an escaped name followed by a closing backtick recovers the
original characters exactly and stops at the closing backtick. -/
theorem lexQuoted_escape : ∀ (cs rest : List Char),
    lexQuoted (escapeChars cs ++ (backtickChar :: rest)) = .ok (cs, rest) := by
  intro cs
  induction cs with
  | nil =>
    intro rest
    rw [show escapeChars [] = [] from rfl, List.nil_append, lexQuoted.eq_def]
    simp
  | cons c cs ih =>
    intro rest
    have hbs : ¬ (('\\' : Char) = backtickChar) := by decide
    have hsb : ¬ (backtickChar = '\\') := by decide
    by_cases hb : c = '\\'
    · subst hb
      rw [show escapeChars ('\\' :: cs) = '\\' :: '\\' :: escapeChars cs from by
        simp [escapeChars], List.cons_append, List.cons_append, lexQuoted.eq_def]
      simp [hbs, ih]
    · by_cases hbt : c = backtickChar
      · subst hbt
        rw [show escapeChars (backtickChar :: cs) = '\\' :: backtickChar :: escapeChars cs from by
          simp [escapeChars, hsb], List.cons_append, List.cons_append, lexQuoted.eq_def]
        simp [hbs, ih]
      · rw [show escapeChars (c :: cs) = c :: escapeChars cs from by
          simp [escapeChars, hb, hbt], List.cons_append, lexQuoted.eq_def]
        simp [hb, hbt, ih]

/-- C9: for any printable-ASCII string `t`, escaping each backslash as a
double backslash and each backtick as backslash-backtick and wrapping the
result in backticks yields a quoted name that parses back to an `Ident`
whose name is exactly `t` (embedded whitespace preserved verbatim, collision
id 0); and no escape other than those two is accepted — a backslash followed
by any other character is a `BadEscape` lexical error. -/
theorem quoted_name_roundtrip :
    (∀ t : String, printableAscii t → parse.ident (quoteName t) = .ok ⟨t, 0⟩) ∧
    (∀ (c : Char) (rest : List Char), ¬ c = '\\' → ¬ c = backtickChar →
      lexQuoted ('\\' :: c :: rest) = .error .badEscape) := by
  constructor
  · intro t _
    have hq := lexQuoted_escape t.data []
    have hmk : String.mk t.data = t := by cases t; rfl
    have hstep : ∀ k : Nat,
        lexGo (k + 2) (backtickChar :: (escapeChars t.data ++ [backtickChar])) =
          .ok [Token.name t] := by
      intro k
      have h1 : isWs backtickChar = false := by decide
      have h2 : ¬ (backtickChar = '/') := by decide
      have h3 : isNameStart backtickChar = false := by decide
      have h4 : backtickChar.isDigit = false := by decide
      simp [lexGo, h1, h2, h3, h4, hq, hmk]
    have hlex : lex (quoteName t) = .ok [Token.name t] := by
      unfold lex
      have hdata : (quoteName t).data =
          backtickChar :: (escapeChars t.data ++ [backtickChar]) := rfl
      rw [hdata]
      have hlen : (backtickChar :: (escapeChars t.data ++ [backtickChar])).length + 1 =
          ((escapeChars t.data).length + 1) + 2 := by
        simp only [List.length_cons, List.length_append, List.length_nil]
      rw [hlen]
      exact hstep _
    unfold parse.ident runParse
    rw [hlex]
    simp [parseIdentT]
  · intro c rest h1 h2
    have hb : ¬ (('\\' : Char) = backtickChar) := by decide
    rw [lexQuoted.eq_def]
    simp [hb, h1, h2]

/-- Witness for C9: the name containing a space, a backtick and a backslash
survives the quote-escape round trip, and the escape backslash-q is
rejected. -/
theorem quoted_name_roundtrip_witness :
    parse.ident (quoteName ("a`b \\c")) = .ok ⟨"a`b \\c", 0⟩ ∧
    lexQuoted ['\\', 'q'] = .error .badEscape :=
  ⟨quoted_name_roundtrip.1 ("a`b \\c") (by decide),
    quoted_name_roundtrip.2 'q' [] (by decide) (by decide)⟩

/-- Keyword lookup never yields an integer token. -/
theorem lexKeyword_ne_int (s : String) (v : Nat) : lexKeyword s ≠ .int v := by
  unfold lexKeyword
  repeat' split
  all_goals simp

/-- Punctuation lookup never yields an integer token. -/
theorem punct_ne_int {c : Char} {t : Token} (h : punct c = some t) (v : Nat) :
    t ≠ .int v := by
  unfold punct at h
  repeat' split at h
  all_goals first
  | (cases h; simp)
  | simp_all

/-- Every integer token the lexer emits is below `2 ^ 64`. -/
theorem lex_ints_bounded : ∀ (fuel : Nat) (cs : List Char) (toks : List Token),
    lexGo fuel cs = .ok toks → ∀ v, Token.int v ∈ toks → v < 2 ^ 64 := by
  intro fuel
  induction fuel with
  | zero =>
    intro cs toks h
    exact absurd h (by simp [lexGo])
  | succ fuel ih =>
    intro cs toks h v hv
    cases cs with
    | nil =>
      simp only [lexGo] at h
      cases h
      simp at hv
    | cons c cs2 =>
      simp only [lexGo] at h
      split at h
      · exact ih _ _ h v hv
      · split at h
        · split at h
          · exact ih _ _ h v hv
          · exact absurd h (by simp)
        · split at h
          · split at h
            · exact absurd h (by simp)
            · split at h
              · exact absurd h (by simp)
              · rename_i toks2 hgo
                cases h
                simp only [List.mem_cons] at hv
                rcases hv with h1 | h1
                · exact absurd h1 (by simp)
                · exact ih _ _ hgo v h1
          · split at h
            · split at h
              · exact absurd h (by simp)
              · rename_i toks2 hgo
                cases h
                simp only [List.mem_cons] at hv
                rcases hv with h1 | h1
                · exact absurd h1.symm (lexKeyword_ne_int _ v)
                · exact ih _ _ hgo v h1
            · split at h
              · split at h
                · rename_i hlt
                  split at h
                  · exact absurd h (by simp)
                  · rename_i toks2 hgo
                    cases h
                    simp only [List.mem_cons] at hv
                    rcases hv with h1 | h1
                    · cases h1
                      exact hlt
                    · exact ih _ _ hgo v h1
                · exact absurd h (by simp)
              · split at h
                · split at h
                  · split at h
                    · exact absurd h (by simp)
                    · rename_i toks2 hgo
                      cases h
                      simp only [List.mem_cons] at hv
                      rcases hv with h1 | h1
                      · exact absurd h1 (by simp)
                      · exact ih _ _ hgo v h1
                  · exact absurd h (by simp)
                · split at h
                  · rename_i t hp
                    split at h
                    · exact absurd h (by simp)
                    · rename_i toks2 hgo
                      cases h
                      simp only [List.mem_cons] at hv
                      rcases hv with h1 | h1
                      · exact absurd h1.symm (punct_ne_int hp v)
                      · exact ih _ _ hgo v h1
                  · exact absurd h (by simp)

/-- A parsed ident's collision id is either the default zero or the payload
of an integer token of the input. -/
theorem parseIdentT_collision {toks : List Token} {id : Ident} {rest : List Token}
    (h : parseIdentT toks = .ok (id, rest)) :
    id.collision_id = 0 ∨ Token.int id.collision_id ∈ toks := by
  unfold parseIdentT at h
  split at h
  · cases h
    right
    simp
  · exact absurd h (by simp)
  · exact absurd h (by simp)
  · cases h
    left
    rfl
  · exact absurd h (by simp)
  · exact absurd h (by simp)

/-- C10: every ident the front end produces has a collision id representable
as an unsigned 64-bit integer — `0 ≤ collision_id < 2 ^ 64` for every
successful `parse.ident` (the lower bound holds by the `Nat` embedding of
the `u64` field of `src/parse/syntax.rs`) — and a collision tag whose
numeric value exceeds `2 ^ 64 - 1` is not representable: lexing it fails. -/
theorem collision_ids_are_u64 :
    (∀ (s : String) (i : Ident), parse.ident s = .ok i → i.collision_id < 2 ^ 64) ∧
    parse.ident ("foo#18446744073709551616") = .error (.lexError .intOverflow) := by
  constructor
  · intro s i h
    unfold parse.ident runParse at h
    split at h
    · exact absurd h (by simp)
    · rename_i toks hl
      split at h
      · exact absurd h (by simp)
      · rename_i a hp
        cases h
        rcases parseIdentT_collision hp with h0 | hmem
        · rw [h0]
          decide
        · exact lex_ints_bounded _ _ _ hl _ hmem
      · exact absurd h (by simp)
  · rfl

/-- Witness for C10: the collision id parsed from `foo#42` is below
`2 ^ 64`. -/
theorem collision_ids_are_u64_witness :
    (Ident.mk ("foo") 42).collision_id < 2 ^ 64 :=
  collision_ids_are_u64.1 ("foo#42") ⟨"foo", 42⟩ (by rfl)

end Nickel
